import Mathlib

/-!
Verification development for the convolens conversation-analysis engine.

Texts are modelled as `List Char`.  Python's `re` library is modelled by a
small regex interpreter covering exactly the constructs used by the fixed
pattern tables of the source (`literal`, alternation, `\b`, `\s+`, `?`),
and by a word-boundary `findall` for the keyword lexicons, which are
compiled in the source as `\b + re.escape(kw) + \b` with `IGNORECASE`.
External collaborators (the sentiment-polarity primitive of TextBlob, the
text2emotion primitive) are taken as parameters, as the spec directs.
-/

namespace Convolens

/-- Python `\w` (ASCII fragment): letters, digits and underscore. -/
def isPyWord (c : Char) : Bool := c.isAlphanum || c = '_'

/-- Python `\s` / `str.isspace` character set (ASCII fragment). -/
def isPyWS (c : Char) : Bool :=
  c = ' ' || c = '\t' || c = '\n' || c = '\r' || c = Char.ofNat 11 || c = Char.ofNat 12

/-- Python `str.lower` (ASCII fragment). -/
def pyLower (s : List Char) : List Char := s.map Char.toLower

/-- Python `str.strip`: drop leading and trailing whitespace. -/
def pyStrip (s : List Char) : List Char :=
  ((s.dropWhile isPyWS).reverse.dropWhile isPyWS).reverse

/-- Python `str.isdigit` (ASCII fragment): non-empty and all digits. -/
def pyIsDigit (s : List Char) : Bool := !s.isEmpty && s.all Char.isDigit

/-- Python `str.isspace`: non-empty and all whitespace. -/
def pyIsSpace (s : List Char) : Bool := !s.isEmpty && s.all isPyWS

/-- Token counter for Python `str.split()`: `inWord` records whether the
previous character belonged to a token. -/
def pyWordCountAux : Bool → List Char → Nat
  | _, [] => 0
  | inWord, c :: rest =>
    if isPyWS c then pyWordCountAux false rest
    else (if inWord then 0 else 1) + pyWordCountAux true rest

/-- Count of the whitespace-delimited tokens of Python `str.split()`. -/
def pyWordCount (s : List Char) : Nat := pyWordCountAux false s

/-- Word-character status of an optional character; the absent character at
either end of the text counts as a non-word character, as in `re`. -/
def wordish : Option Char → Bool
  | none => false
  | some c => isPyWord c

/-- Python `\b`: a word boundary lies between `prev` and the head of `s`
exactly when the two sides disagree on word-character status. -/
def wordBoundary (prev : Option Char) (s : List Char) : Bool :=
  wordish prev != wordish s.head?

/-- Regex fragment used by the fixed pattern tables of the source:
characters, concatenation, alternation, `\b`, `\s+` and `?`. -/
inductive RE where
  | eps : RE
  | lit : Char → RE
  | seq : RE → RE → RE
  | alt : RE → RE → RE
  | wb : RE
  | wsp : RE
  | opt : RE → RE
deriving Repr

/-- Literal regex for a string. -/
def strRE (s : String) : RE := s.toList.foldr (fun c r => RE.seq (RE.lit c) r) RE.eps

/-- All ways `\s+` can consume a non-empty whitespace run. -/
def wspConsume : Option Char → List Char → List (Option Char × List Char)
  | _, [] => []
  | _, c :: rest =>
    if isPyWS c then (some c, rest) :: wspConsume (some c) rest else []

/-- Backtracking matcher: all `(last consumed char, remaining text)` pairs a
match of `r` starting at the head of `s` can produce, given the character
`prev` just before the current position. -/
def reMatch : RE → Option Char → List Char → List (Option Char × List Char)
  | .eps, prev, s => [(prev, s)]
  | .lit c, _, s =>
    match s with
    | x :: rest => if x = c then [(some x, rest)] else []
    | [] => []
  | .seq a b, prev, s => (reMatch a prev s).flatMap (fun pr => reMatch b pr.1 pr.2)
  | .alt a b, prev, s => reMatch a prev s ++ reMatch b prev s
  | .wb, prev, s => if wordBoundary prev s then [(prev, s)] else []
  | .wsp, prev, s => wspConsume prev s
  | .opt r, prev, s => (prev, s) :: reMatch r prev s

/-- Whether `r` matches somewhere in `s` given the character before `s`. -/
def reSearchAux (r : RE) : Option Char → List Char → Bool
  | prev, s =>
    if !(reMatch r prev s).isEmpty then true
    else
      match s with
      | [] => false
      | c :: rest => reSearchAux r (some c) rest

/-- Python `re.search(r, s) is not None`. -/
def reSearch (r : RE) (s : List Char) : Bool := reSearchAux r none s

/-- Short-hand for a fully word-boundary-anchored literal `\b w \b`. -/
def reWB (w : String) : RE := .seq .wb (.seq (strRE w) .wb)

/-- Regex `\bfeel|feeling|felt\b` of the source's persuasion table. -/
def pFeel : RE := .alt (.seq .wb (strRE "feel")) (.alt (strRE "feeling") (.seq (strRE "felt") .wb))

/-- Regex `\blove|hate\b`. -/
def pLove : RE := .alt (.seq .wb (strRE "love")) (.seq (strRE "hate") .wb)

/-- Regex `\bfear|afraid|scared\b`. -/
def pFear : RE := .alt (.seq .wb (strRE "fear")) (.alt (strRE "afraid") (.seq (strRE "scared") .wb))

/-- Regex `\bangry|mad|furious\b`. -/
def pAngry : RE := .alt (.seq .wb (strRE "angry")) (.alt (strRE "mad") (.seq (strRE "furious") .wb))

/-- Regex `\bexpert|specialist|professional\b`. -/
def pExpert : RE :=
  .alt (.seq .wb (strRE "expert")) (.alt (strRE "specialist") (.seq (strRE "professional") .wb))

/-- Regex `\bstudies?\s+show\b`. -/
def pStudies : RE :=
  .seq .wb (.seq (strRE "studie") (.seq (.opt (.lit 's')) (.seq .wsp (.seq (strRE "show") .wb))))

/-- Regex `\bresearch\s+(shows|indicates|proves)\b`. -/
def pResearch : RE :=
  .seq .wb (.seq (strRE "research")
    (.seq .wsp (.seq (.alt (strRE "shows") (.alt (strRE "indicates") (strRE "proves"))) .wb)))

/-- Regex `\baccording\s+to\b`. -/
def pAccording : RE := .seq .wb (.seq (strRE "according") (.seq .wsp (.seq (strRE "to") .wb)))

/-- Regex `\bas\s+a\s+result\b`. -/
def pAsAResult : RE :=
  .seq .wb (.seq (strRE "as") (.seq .wsp (.seq (strRE "a") (.seq .wsp (.seq (strRE "result") .wb)))))

/-- Regex `\bpeople\s+(are|do|think|believe)\b`. -/
def pPeople : RE :=
  .seq .wb (.seq (strRE "people")
    (.seq .wsp (.seq (.alt (strRE "are") (.alt (strRE "do") (.alt (strRE "think") (strRE "believe")))) .wb)))

/-- The `persuasion_indicators` table of `ConversationAnalyzer.__init__`:
four categories, each an ordered list of regex patterns. -/
def persuasion_indicators : List (String × List RE) :=
  [("emotional_appeal", [pFeel, reWB "heart", pLove, pFear, pAngry]),
   ("authority", [pExpert, pStudies, pResearch, pAccording]),
   ("logic", [reWB "therefore", reWB "because", reWB "since", reWB "thus",
              reWB "consequently", pAsAResult]),
   ("social_proof", [pPeople, reWB "trend", reWB "popular", reWB "majority"])]

/-- A message of the conversation payload handed to `ConversationAnalyzer`:
a `speaker` name and a `message` text. -/
structure Msg where
  speaker : String
  message : List Char
deriving Repr, DecidableEq

/-- Persuasion part of the raw influence score of one utterance: the source
loops over every category and every pattern, adding `0.1` for each pattern
found by `re.search` in the lowercased message. -/
def persuasionScorePart (lowm : List Char) : ℚ :=
  persuasion_indicators.foldl
    (fun sc tp => tp.2.foldl (fun sc2 p => if reSearch p lowm then sc2 + 1 / 10 else sc2) sc) 0

/-- Raw influence score of one utterance, as accumulated by
`_calculate_influence_scores`: persuasion patterns, length bonus, sentiment
magnitude (`pol` is the TextBlob polarity collaborator) and question bonus. -/
def msgScore (pol : List Char → ℚ) (m : List Char) : ℚ :=
  persuasionScorePart (pyLower m)
    + (if 20 < pyWordCount m then 1 / 20 else 0)
    + |pol m| * (1 / 5)
    + (if m.contains '?' then 1 / 10 else 0)

/-- Tactic accumulation of `_calculate_influence_scores` for one message:
for every matching pattern the category name is appended unless already
present. -/
def msgTacticsStep (lowm : List Char) (tactics : List String) : List String :=
  persuasion_indicators.foldl
    (fun tcs tp =>
      tp.2.foldl
        (fun t2 p =>
          if reSearch p lowm then (if tp.1 ∈ t2 then t2 else t2 ++ [tp.1]) else t2)
        tcs)
    tactics

/-- Speakers in first-encounter order: `defaultdict` key insertion order. -/
def firstEncounterSpeakers (data : List Msg) : List String :=
  data.foldl (fun acc m => if m.speaker ∈ acc then acc else acc ++ [m.speaker]) []

/-- Messages of one speaker in transcript order (the `speaker_data` lists). -/
def messagesOf (data : List Msg) (s : String) : List (List Char) :=
  (data.filter (fun m => m.speaker = s)).map (fun m => m.message)

/-- Raw influence score of a speaker over their messages. -/
def rawScore (pol : List Char → ℚ) (msgs : List (List Char)) : ℚ :=
  msgs.foldl (fun sc m => sc + msgScore pol m) 0

/-- Tactics of a speaker over their messages. -/
def tacticsOf (msgs : List (List Char)) : List String :=
  msgs.foldl (fun tcs m => msgTacticsStep (pyLower m) tcs) []

/-- Normalization of `_calculate_influence_scores`:
`min(score / max_possible_score, 1.0) if max_possible_score > 0 else 0`
with `max_possible_score = len(messages) * 0.5`. -/
def normalizedScore (raw : ℚ) (n : Nat) : ℚ :=
  if 0 < (n : ℚ) * (1 / 2) then min (raw / ((n : ℚ) * (1 / 2))) 1 else 0

/-- One entry of the `influence_scores` list. -/
structure InfluenceRecord where
  speaker : String
  score : ℚ
  tactics : List String
  message_count : Nat
deriving Repr, DecidableEq

/-- The influence record built for one speaker. -/
def influenceEntry (pol : List Char → ℚ) (data : List Msg) (s : String) : InfluenceRecord :=
  let ms := messagesOf data s
  ⟨s, normalizedScore (rawScore pol ms) ms.length, tacticsOf ms, ms.length⟩

/-- Influence records before sorting, in speaker first-encounter order. -/
def unsortedInfluence (pol : List Char → ℚ) (data : List Msg) : List InfluenceRecord :=
  (firstEncounterSpeakers data).map (influenceEntry pol data)

/-- Stable insertion into a list sorted by descending score: the new record
goes after every record whose score is at least as large, so records with
equal scores keep their relative order. -/
def insertDesc (e : InfluenceRecord) : List InfluenceRecord → List InfluenceRecord
  | [] => [e]
  | x :: xs => if x.score < e.score then e :: x :: xs else x :: insertDesc e xs

/-- Stable descending sort by score, the behaviour of Python's
`sorted(..., key=lambda x: x["score"], reverse=True)`. -/
def sortDescInfluence (l : List InfluenceRecord) : List InfluenceRecord :=
  l.foldl (fun acc e => insertDesc e acc) []

/-- The full `_calculate_influence_scores`. -/
def calculate_influence_scores (pol : List Char → ℚ) (data : List Msg) : List InfluenceRecord :=
  sortDescInfluence (unsortedInfluence pol data)

/-- Total number of persuasion patterns matching a lowercased message. -/
def countMatchingPatterns (lowm : List Char) : Nat :=
  (persuasion_indicators.map (fun tp => tp.2.countP (fun p => reSearch p lowm))).sum

/-- Number of persuasion categories with at least one matching pattern. -/
def countMatchingCategories (lowm : List Char) : Nat :=
  (persuasion_indicators.countP (fun tp => tp.2.any (fun p => reSearch p lowm)))

/-- Per-speaker averaged emotion channels of `_analyze_emotions`. -/
structure EmotionTriple where
  positive : ℚ
  negative : ℚ
  neutral : ℚ
deriving Repr, DecidableEq

/-- The per-message emotion record of `_analyze_emotions`, derived from the
sentiment polarity of the message. -/
def emotionRecord (p : ℚ) : EmotionTriple := ⟨max 0 p, max 0 (-p), 1 - |p|⟩

/-- Arithmetic mean of a list of rationals. -/
def avgQ (xs : List ℚ) : ℚ := xs.sum / (xs.length : ℚ)

/-- The `_analyze_emotions` analyzer: per-message emotion records grouped by
speaker (first-encounter order), then averaged channel-wise. -/
def analyze_emotions (pol : List Char → ℚ) (data : List Msg) : List (String × EmotionTriple) :=
  (firstEncounterSpeakers data).map (fun s =>
    let es := (messagesOf data s).map (fun m => emotionRecord (pol m))
    (s, ⟨avgQ (es.map (fun e => e.positive)),
         avgQ (es.map (fun e => e.negative)),
         avgQ (es.map (fun e => e.neutral))⟩))

/-- Character class `[\w\s.-]` of the strict speaker-prefix regex. -/
def inSpkClass (c : Char) : Bool := isPyWord c || isPyWS c || c = '.' || c = '-'

/-- Number of leading whitespace characters. -/
def wsCount (s : List Char) : Nat := (s.takeWhile isPyWS).length

/-- Whether `\s*[:]\s+` matches at the start of `rest`: after the greedy
whitespace run the next character must be a colon followed by at least one
whitespace character. -/
def colonThenWS (rest : List Char) : Bool :=
  match rest.dropWhile isPyWS with
  | ':' :: c :: _ => isPyWS c
  | _ => false

/-- Lazy search for the group of `^\s*([\w\s.-]+?)\s*[:]\s+` from the
current position: grow the group one character at a time (each character
must lie in the class) and stop at the first length whose continuation
matches `\s*[:]\s+`.  `acc` is the reversed group so far. -/
def strictGroupAux : List Char → List Char → Option (List Char)
  | _, [] => none
  | acc, c :: rest =>
    if inSpkClass c then
      if colonThenWS rest then some (c :: acc).reverse
      else strictGroupAux (c :: acc) rest
    else none

/-- Backtracking over the greedy leading `\s*`: try consuming `k` leading
characters first (the greedy maximum), then fewer on failure. -/
def strictLoop (s : List Char) : Nat → Option (List Char)
  | 0 => strictGroupAux [] s
  | k + 1 =>
    match strictGroupAux [] (s.drop (k + 1)) with
    | some g => some g
    | none => strictLoop s k

/-- Python `re.match` of `^\s*([\w\s.-]+?)\s*[:]\s+` on a line: the group
text, if the pattern matches. -/
def strictMatch (s : List Char) : Option (List Char) := strictLoop s (wsCount s)

/-- The source's `get_speaker_from_line_txt`: the stripped strict-pattern
group if the strict pattern matches, otherwise the fallback that accepts a
colon-delimited prefix shorter than 50 characters and not purely numeric. -/
def get_speaker_from_line_txt (line : List Char) : Option (List Char) :=
  match strictMatch line with
  | some g => some (pyStrip g)
  | none =>
    if line.contains ':' then
      let possible := pyStrip (line.takeWhile (fun c => c ≠ ':'))
      if possible.length < 50 && !pyIsDigit possible then some possible else none
    else none

/-- State of `calculate_interaction_frequency`: the `interactions` counter
(a total weight function, with weight `0` for absent keys) and
`last_speaker`. -/
structure InterState where
  weights : List Char × List Char → Nat
  last : Option (List Char)

/-- Increment of a `defaultdict(int)` entry. -/
def bump (f : List Char × List Char → Nat) (key : List Char × List Char) :
    List Char × List Char → Nat :=
  fun p => if p = key then f p + 1 else f p

/-- One step of the interaction walk, for a message whose extracted speaker
is `cur` (`none` when no speaker was found; the empty string is falsy in
Python, so it is skipped like `none`).  When `last_speaker` is set (truthy)
and differs from the current speaker, the directed edge
`(last_speaker, current_speaker)` is incremented; `last_speaker` is then
updated to the current speaker. -/
def interStep (st : InterState) (cur? : Option (List Char)) : InterState :=
  match cur? with
  | none => st
  | some cur =>
    if cur.isEmpty then st
    else
      match st.last with
      | some l =>
        if !l.isEmpty && l ≠ cur then ⟨bump st.weights (l, cur), some cur⟩
        else ⟨st.weights, some cur⟩
      | none => ⟨st.weights, some cur⟩

/-- The interaction walk of `calculate_interaction_frequency` over the
sequence of per-message extracted speakers (identical for the txt, json
and csv branches of the source). -/
def interactionWalk (msgs : List (Option (List Char))) : InterState :=
  msgs.foldl interStep ⟨fun _ => 0, none⟩

/-- An edge exists in the produced `links` exactly when its key was
incremented at least once. -/
def hasEdge (msgs : List (Option (List Char))) (p : List Char × List Char) : Prop :=
  0 < (interactionWalk msgs).weights p

/-- The speaker-resolvable messages: extracted speakers that are truthy. -/
def resolvableSpeakers (msgs : List (Option (List Char))) : List (List Char) :=
  msgs.filterMap (fun o =>
    match o with
    | some s => if s.isEmpty then none else some s
    | none => none)

/-- Number of adjacent positions of `l` holding `a` immediately followed
by `b`. -/
def adjCount (l : List (List Char)) (a b : List Char) : Nat :=
  ((l.zip l.tail).filter (fun p => p.1 = a && p.2 = b)).length

/-- Adjacency count of the walk starting from a given `last_speaker`:
counts positions where the previous resolvable speaker is `a` and the
current one is `b`, with `a ≠ b`. -/
def adjFrom (last : Option (List Char)) (l : List (List Char)) (a b : List Char) : Nat :=
  match l with
  | [] => 0
  | x :: rest =>
    (if last = some a ∧ x = b ∧ a ≠ b then 1 else 0) + adjFrom (some x) rest a b

/-- Invariant of the walk: a set `last_speaker` is never the empty
string (only truthy speakers are ever assigned). -/
def lastOK : Option (List Char) → Prop
  | none => True
  | some l => l ≠ []

/-- Whether the lowercased text at the head of `s` equals the lowercased
keyword (the patterns are compiled with `re.IGNORECASE`). -/
def matchesAt (kw s : List Char) : Bool := pyLower (s.take kw.length) = pyLower kw

/-- Word boundary after the matched region: between the last matched
character and the following text. -/
def endBoundary (kw s : List Char) : Bool :=
  wordBoundary ((s.take kw.length).getLast?) (s.drop kw.length)

/-- Python `re.findall` for a pattern `\b + re.escape(kw) + \b` with
`IGNORECASE`: all non-overlapping boundary-delimited occurrences, scanning
left to right, returning the matched slices of the original text. -/
def findallAux (kw : List Char) : Nat → Option Char → List Char → List (List Char)
  | 0, _, _ => []
  | _ + 1, _, [] => []
  | fuel + 1, prev, c :: rest =>
    if kw.length = 0 then []
    else
      if matchesAt kw (c :: rest) && wordBoundary prev (c :: rest) && endBoundary kw (c :: rest) then
        (c :: rest).take kw.length
          :: findallAux kw fuel (((c :: rest).take kw.length).getLast?) ((c :: rest).drop kw.length)
      else findallAux kw fuel (some c) rest

/-- Python `pattern.findall(text)` for the keyword patterns.  The fuel
argument only bounds the recursion depth: every step consumes at least one
character, so `s.length` steps always suffice. -/
def findallWB (kw s : List Char) : List (List Char) := findallAux kw s.length none s

/-- The apostrophe character, used inside several lexicon entries. -/
def apoC : Char := Char.ofNat 39

/-- Short-hand turning a string literal into a character list. -/
def kw (s : String) : List Char := s.toList

/-- The `AD_HOMINEM_KEYWORDS` lexicon of the source, verbatim. -/
def AD_HOMINEM_KEYWORDS : List (List Char) :=
  [kw "idiot", kw "stupid", kw "moron", kw "ignorant", kw "fool", kw "jerk",
   kw "loser", kw "naive", kw "you are dumb",
   kw "you" ++ apoC :: kw "re a joke",
   kw "he is a liar", kw "she is incompetent", kw "they are clueless",
   kw "personal attack"]

/-- The `FALSE_DICHOTOMY_PHRASES` list of the source, verbatim. -/
def FALSE_DICHOTOMY_PHRASES : List (List Char) :=
  [kw "either...or",
   kw "it" ++ apoC :: kw "s either...or...",
   kw "you are either with us or against us",
   kw "either you agree or you don" ++ apoC :: kw "t",
   kw "there are only two types of people",
   kw "no middle ground",
   kw "black and white thinking"]

/-- The `GUILT_TRIPPING_KEYWORDS` lexicon of the source, verbatim. -/
def GUILT_TRIPPING_KEYWORDS : List (List Char) :=
  [kw "if you cared", kw "if you loved me", kw "you would understand if",
   kw "don" ++ apoC :: kw "t you feel bad",
   kw "after all I" ++ apoC :: kw "ve done for you",
   kw "I sacrificed so much", kw "you owe me", kw "making me feel guilty",
   kw "you always make me"]

/-- The `GASLIGHTING_KEYWORDS` lexicon of the source, verbatim. -/
def GASLIGHTING_KEYWORDS : List (List Char) :=
  [kw "you" ++ apoC :: kw "re imagining things",
   kw "that never happened", kw "you are crazy",
   kw "you" ++ apoC :: kw "re being irrational",
   kw "you" ++ apoC :: kw "re too sensitive",
   kw "don" ++ apoC :: kw "t be so dramatic",
   kw "I never said that",
   kw "you" ++ apoC :: kw "re misremembering",
   kw "it" ++ apoC :: kw "s all in your head",
   kw "you" ++ apoC :: kw "re making it up"]

/-- Python substring test `needle in hay`. -/
def isSubstr (needle hay : List Char) : Bool :=
  match hay with
  | [] => needle.isEmpty
  | c :: rest => needle.isPrefixOf (c :: rest) || isSubstr needle rest

/-- Last segment of Python `s.split(sep)`: the text after the final
separator occurrence of the left-to-right non-overlapping scan.  `acc` is
the reversed current segment. -/
def splitLastAux (sep : List Char) : Nat → List Char → List Char → List Char
  | 0, acc, _ => acc.reverse
  | _ + 1, acc, [] => acc.reverse
  | fuel + 1, acc, c :: rest =>
    if !sep.isEmpty && sep.isPrefixOf (c :: rest) then
      splitLastAux sep fuel [] ((c :: rest).drop sep.length)
    else splitLastAux sep fuel (c :: acc) rest

/-- Python `s.split(sep)[-1]`.  The fuel argument only bounds the
recursion depth: every step consumes at least one character. -/
def splitLastSeg (sep s : List Char) : List Char := splitLastAux sep s.length [] s

/-- The additional context check of the generic `"either...or"` phrase:
`"either " in text_lower and " or " in text_lower.split("either ")[-1]`. -/
def eitherOrTokens (lowt : List Char) : Bool :=
  isSubstr (kw "either ") lowt && isSubstr (kw " or ") (splitLastSeg (kw "either ") lowt)

/-- One detection entry: keyword categories carry the deduplicated matched
terms (`keywords_matched`), the false-dichotomy category carries the
matched phrase (`phrase_matched`). -/
inductive Finding where
  | keywords (ty : String) (terms : List (List Char))
  | phrase (ty : String) (p : List Char)
deriving Repr, DecidableEq

/-- Category name of a finding. -/
def findingType : Finding → String
  | .keywords ty _ => ty
  | .phrase ty _ => ty

/-- First-match-wins scan of one keyword category: the first keyword whose
`findall` is non-empty produces the single entry (with `list(set(...))` of
its matches) and stops the scan. -/
def firstMatchEntry (ty : String) (kws : List (List Char)) (t : List Char) : Option Finding :=
  match kws with
  | [] => none
  | k :: rest =>
    if !(findallWB k t).isEmpty then some (.keywords ty (findallWB k t).dedup)
    else firstMatchEntry ty rest t

/-- The false-dichotomy scan: a simple lowercased substring check per
phrase; the generic `"either...or"` phrase additionally requires the token
check, and on its failure the scan continues with the remaining phrases. -/
def fdScan (phrases : List (List Char)) (lowt : List Char) : Option Finding :=
  match phrases with
  | [] => none
  | p :: rest =>
    if isSubstr (pyLower p) lowt then
      if p = kw "either...or" then
        if eitherOrTokens lowt then some (.phrase "False Dichotomy" p)
        else fdScan rest lowt
      else some (.phrase "False Dichotomy" p)
    else fdScan rest lowt

/-- The per-utterance findings of
`detect_fallacies_and_manipulation_heuristic`. -/
structure Detection where
  fallacies : List Finding
  manipulations : List Finding
deriving Repr, DecidableEq

/-- Detection for one valid utterance: ad hominem then false dichotomy are
appended to `detected_fallacies`; guilt tripping then gaslighting to
`detected_manipulations`. -/
def detectOne (t : List Char) : Detection :=
  ⟨(firstMatchEntry "Ad Hominem" AD_HOMINEM_KEYWORDS t).toList
     ++ (fdScan FALSE_DICHOTOMY_PHRASES (pyLower t)).toList,
   (firstMatchEntry "Guilt Tripping" GUILT_TRIPPING_KEYWORDS t).toList
     ++ (firstMatchEntry "Gaslighting (potential)" GASLIGHTING_KEYWORDS t).toList⟩

/-- An element of the text list handed to the per-utterance analyzers: a
Python string or a value of any other type. -/
inductive PyVal where
  | str (s : List Char)
  | nonStr
deriving Repr, DecidableEq

/-- The guard `not text or not isinstance(text, str) or text.isspace()`:
true exactly for non-strings and for empty or whitespace-only strings. -/
def invalidText : PyVal → Bool
  | .nonStr => true
  | .str s => s.isEmpty || pyIsSpace s

/-- One record of `analyze_emotions_with_text2emotion`. -/
structure EmoRecord where
  text : PyVal
  emotions : List (String × ℚ)
  error : Option String
deriving Repr, DecidableEq

/-- Per-element behaviour of `analyze_emotions_with_text2emotion`; `prim`
is the external `text2emotion.get_emotion` collaborator, whose exceptions
are modelled by the `Except.error` case. -/
def emoRecordOf (prim : List Char → Except String (List (String × ℚ))) (v : PyVal) : EmoRecord :=
  if invalidText v then ⟨v, [], some "Empty or invalid input text"⟩
  else
    match v with
    | .str s =>
      match prim s with
      | .ok e => ⟨v, e, none⟩
      | .error m => ⟨v, [], some ("Error during emotion analysis: " ++ m)⟩
    | .nonStr => ⟨v, [], some "Empty or invalid input text"⟩

/-- The results list of `analyze_emotions_with_text2emotion`. -/
def analyze_emotions_with_text2emotion
    (prim : List Char → Except String (List (String × ℚ))) (l : List PyVal) : List EmoRecord :=
  l.map (emoRecordOf prim)

/-- The `ETHOS_LEXICON` of the source, verbatim. -/
def ETHOS_LEXICON : List (List Char) :=
  [kw "expert", kw "expertise", kw "authority", kw "authoritative",
   kw "credentials", kw "experience", kw "experienced", kw "proven",
   kw "track record", kw "reliable", kw "trustworthy", kw "honest",
   kw "integrity", kw "sincere", kw "research shows", kw "studies indicate",
   kw "according to experts", kw "dr.", kw "professor", kw "we believe",
   kw "our commitment", kw "our values", kw "ethically", kw "responsible"]

/-- The `PATHOS_LEXICON` of the source, verbatim. -/
def PATHOS_LEXICON : List (List Char) :=
  [kw "imagine", kw "feel", kw "feeling", kw "heart", kw "soul", kw "spirit",
   kw "passion", kw "passionate", kw "hope", kw "dream", kw "aspire",
   kw "desire", kw "yearn", kw "joy", kw "happy", kw "delight", kw "pleasure",
   kw "wonderful", kw "amazing", kw "fantastic", kw "miracle", kw "sad",
   kw "sorrow", kw "pain", kw "suffering", kw "heartbreaking", kw "tragic",
   kw "unfortunate", kw "fear", kw "afraid", kw "danger", kw "risk",
   kw "threat", kw "anxiety", kw "worry", kw "anger", kw "outrage",
   kw "frustration", kw "injustice", kw "unfair", kw "love", kw "compassion",
   kw "empathy", kw "care", kw "kindness", kw "sympathy", kw "urgent",
   kw "critical", kw "immediate", kw "now", kw "crisis", kw "must act",
   kw "story", kw "tale", kw "narrative", kw "journey", kw "vulnerable",
   kw "struggle", kw "victory", kw "our children", kw "our future",
   kw "community", kw "family", kw "shared values", kw "common good"]

/-- The `LOGOS_LEXICON` of the source, verbatim. -/
def LOGOS_LEXICON : List (List Char) :=
  [kw "logic", kw "logical", kw "reason", kw "rational", kw "rationale",
   kw "sound argument", kw "evidence", kw "proof", kw "data", kw "statistics",
   kw "facts", kw "figures", kw "numbers", kw "chart", kw "graph",
   kw "analysis", kw "analyze", kw "analytical", kw "study", kw "research",
   kw "findings", kw "because", kw "therefore", kw "consequently",
   kw "as a result", kw "thus", kw "hence", kw "ergo", kw "if...then",
   kw "since", kw "given that", kw "it follows that", kw "clear",
   kw "clearly", kw "obvious", kw "evidently", kw "plainly",
   kw "demonstrates", kw "shows", kw "indicates", kw "points to",
   kw "verifies", kw "confirms", kw "hypothesis", kw "theory",
   kw "principle", kw "premise", kw "conclusion", kw "compare",
   kw "contrast", kw "differentiate", kw "classify", kw "organize",
   kw "systematic"]

/-- One record of `calculate_persuasion_scores_heuristic`. -/
structure PersRecord where
  text : PyVal
  ethos_score : Nat
  pathos_score : Nat
  logos_score : Nat
  ethos_matches : List (List Char)
  pathos_matches : List (List Char)
  logos_matches : List (List Char)
  error : Option String
deriving Repr, DecidableEq

/-- Total match count of a lexicon over a text (`score += len(matches)`). -/
def lexiconScore (lex : List (List Char)) (s : List Char) : Nat :=
  (lex.map (fun w => (findallWB w s).length)).sum

/-- All matches of a lexicon over a text, concatenated in lexicon order
(`matches.extend(...)` per pattern). -/
def lexiconMatches (lex : List (List Char)) (s : List Char) : List (List Char) :=
  (lex.map (fun w => findallWB w s)).flatten

/-- Per-element behaviour of `calculate_persuasion_scores_heuristic`. -/
def persRecordOf (v : PyVal) : PersRecord :=
  if invalidText v then ⟨v, 0, 0, 0, [], [], [], some "Empty or invalid input text"⟩
  else
    match v with
    | .str s =>
      ⟨v, lexiconScore ETHOS_LEXICON s, lexiconScore PATHOS_LEXICON s,
       lexiconScore LOGOS_LEXICON s,
       (lexiconMatches ETHOS_LEXICON s).dedup,
       (lexiconMatches PATHOS_LEXICON s).dedup,
       (lexiconMatches LOGOS_LEXICON s).dedup, none⟩
    | .nonStr => ⟨v, 0, 0, 0, [], [], [], some "Empty or invalid input text"⟩

/-- The results list of `calculate_persuasion_scores_heuristic`. -/
def calculate_persuasion_scores_heuristic (l : List PyVal) : List PersRecord :=
  l.map persRecordOf

/-- One record of `detect_fallacies_and_manipulation_heuristic`. -/
structure FallacyRecord where
  text : PyVal
  detected_fallacies : List Finding
  detected_manipulations : List Finding
  error : Option String
deriving Repr, DecidableEq

/-- Per-element behaviour of `detect_fallacies_and_manipulation_heuristic`. -/
def fallacyRecordOf (v : PyVal) : FallacyRecord :=
  if invalidText v then ⟨v, [], [], some "Empty or invalid input text"⟩
  else
    match v with
    | .str s => ⟨v, (detectOne s).fallacies, (detectOne s).manipulations, none⟩
    | .nonStr => ⟨v, [], [], some "Empty or invalid input text"⟩

/-- The results list of `detect_fallacies_and_manipulation_heuristic`. -/
def detect_fallacies_and_manipulation_heuristic (l : List PyVal) : List FallacyRecord :=
  l.map fallacyRecordOf

/-- First-encounter deduplication, the key order of Python `Counter`. -/
def firstSeen (l : List (List Char)) : List (List Char) :=
  l.foldl (fun acc s => if s ∈ acc then acc else acc ++ [s]) []

/-- Python `Counter(speakers)` as an association list in key order. -/
def speakerCounter (sp : List (List Char)) : List (List Char × Nat) :=
  (firstSeen sp).map (fun s => (s, sp.count s))

/-- Result of `extract_speaker_statistics`. -/
inductive StatsResult where
  | err (msg : String)
  | ok (total : Nat) (speakers : List (List Char)) (counts : List (List Char × Nat))
deriving Repr, DecidableEq

/-- The `extract_speaker_statistics` function over the per-message speaker
extraction results of the identify helpers (all three formats append a
speaker only when it is truthy).  The unsupported-extension branch of the
source is outside this model; the empty-counter check is the subject of
the claims. -/
def extract_speaker_statistics (msgs : List (Option (List Char))) : StatsResult :=
  let counts := speakerCounter (resolvableSpeakers msgs)
  if counts.isEmpty then
    .err "Could not identify any speakers or file might be empty/misformatted for speakers."
  else .ok ((counts.map Prod.snd).sum) (counts.map Prod.fst) counts

/-- The per-section payload assembled by `run_full_analysis`; each section
may hold an error marker instead of data. -/
structure Payload where
  speaker_statistics : StatsResult
  emotion_analysis : Except String (List EmoRecord)
  persuasion_analysis : Except String (List PersRecord)
  tactic_detection : Except String (List FallacyRecord)
  influence_graph : InterState

/-- The three text-based sections of the pipeline with their issue
messages, for a given text-extraction outcome (`texts` is the result of
`extract_text_from_file`: an error dict or the list of texts). -/
def textSections (prim : List Char → Except String (List (String × ℚ)))
    (texts : Except String (List PyVal)) :
    (Except String (List EmoRecord) × Except String (List PersRecord)
      × Except String (List FallacyRecord)) × List String :=
  match texts with
  | .error m =>
    let em := "Text extraction error: " ++ m
    ((.error em, .error em, .error em), [em])
  | .ok ts =>
    if ts.isEmpty then
      let em := "No text content found for analysis."
      ((.error em, .error em, .error em), [em])
    else
      let er := analyze_emotions_with_text2emotion prim ts
      let pr := calculate_persuasion_scores_heuristic ts
      let tr := detect_fallacies_and_manipulation_heuristic ts
      let eIssue := match er.head? with
        | some r => r.error.isSome
        | none => false
      let pIssue := match pr.head? with
        | some r => r.error.isSome
        | none => false
      let tIssue := match tr.head? with
        | some r => r.error.isSome
        | none => false
      ((.ok er, .ok pr, .ok tr),
       (if eIssue then ["Emotion analysis issue."] else [])
         ++ (if pIssue then ["Persuasion analysis issue."] else [])
         ++ (if tIssue then ["Tactic detection issue."] else []))

/-- The analysis pipeline of `run_full_analysis` (the database and task
bookkeeping around it are external collaborators): the speaker-statistics
section runs first and its error, if any, is appended to the errors list;
every other section is computed regardless. -/
def run_pipeline (prim : List Char → Except String (List (String × ℚ)))
    (msgs : List (Option (List Char))) (texts : Except String (List PyVal)) :
    Payload × List String :=
  let stats := extract_speaker_statistics msgs
  let statErrs := match stats with
    | .err m => ["Speaker statistics error: " ++ m]
    | .ok _ _ _ => []
  let ts := textSections prim texts
  (⟨stats, ts.1.1, ts.1.2.1, ts.1.2.2, interactionWalk msgs⟩, statErrs ++ ts.2)

/-! Helper lemmas about the stable descending insertion sort. -/

theorem mem_insertDesc {e a : InfluenceRecord} {l : List InfluenceRecord} :
    a ∈ insertDesc e l ↔ a = e ∨ a ∈ l := by
  induction l with
  | nil => simp [insertDesc]
  | cons x xs ih =>
    simp only [insertDesc]
    by_cases h : x.score < e.score
    · rw [if_pos h]
      exact List.mem_cons
    · rw [if_neg h]
      simp only [List.mem_cons, ih]
      tauto

theorem mem_foldl_insertDesc :
    ∀ (l acc : List InfluenceRecord) (a : InfluenceRecord),
      a ∈ l.foldl (fun acc e => insertDesc e acc) acc ↔ a ∈ acc ∨ a ∈ l := by
  intro l
  induction l with
  | nil => simp
  | cons e l ih =>
    intro acc a
    simp only [List.foldl_cons, ih, mem_insertDesc, List.mem_cons]
    tauto

theorem mem_sortDescInfluence {a : InfluenceRecord} {l : List InfluenceRecord} :
    a ∈ sortDescInfluence l ↔ a ∈ l := by
  simp [sortDescInfluence, mem_foldl_insertDesc]

theorem sorted_insertDesc {e : InfluenceRecord} {l : List InfluenceRecord}
    (h : l.Sorted (fun a b => b.score ≤ a.score)) :
    (insertDesc e l).Sorted (fun a b => b.score ≤ a.score) := by
  induction l with
  | nil => simp [insertDesc]
  | cons x xs ih =>
    rw [List.sorted_cons] at h
    simp only [insertDesc]
    by_cases hx : x.score < e.score
    · rw [if_pos hx, List.sorted_cons]
      constructor
      · intro b hb
        rcases List.mem_cons.mp hb with hbx | hbxs
        · exact hbx ▸ le_of_lt hx
        · exact le_trans (h.1 b hbxs) (le_of_lt hx)
      · rw [List.sorted_cons]
        exact h
    · rw [if_neg hx, List.sorted_cons]
      constructor
      · intro b hb
        rcases mem_insertDesc.mp hb with hbe | hbxs
        · exact hbe ▸ le_of_not_lt hx
        · exact h.1 b hbxs
      · exact ih h.2

theorem sorted_foldl_insertDesc :
    ∀ (l acc : List InfluenceRecord),
      acc.Sorted (fun a b => b.score ≤ a.score) →
      (l.foldl (fun acc e => insertDesc e acc) acc).Sorted (fun a b => b.score ≤ a.score) := by
  intro l
  induction l with
  | nil => intro acc h; simpa using h
  | cons e l ih =>
    intro acc h
    exact ih (insertDesc e acc) (sorted_insertDesc h)

theorem filter_insertDesc {e : InfluenceRecord} {l : List InfluenceRecord} (c : ℚ)
    (h : l.Sorted (fun a b => b.score ≤ a.score)) :
    (insertDesc e l).filter (fun x => decide (x.score = c))
      = l.filter (fun x => decide (x.score = c))
          ++ (if e.score = c then [e] else []) := by
  induction l with
  | nil =>
    by_cases he : e.score = c <;> simp [insertDesc, he]
  | cons x xs ih =>
    rw [List.sorted_cons] at h
    simp only [insertDesc]
    by_cases hx : x.score < e.score
    · rw [if_pos hx]
      by_cases he : e.score = c
      · have hxs : ∀ b ∈ x :: xs, ¬(b.score = c) := by
          intro b hb
          rcases List.mem_cons.mp hb with hbx | hbxs
          · exact hbx ▸ ne_of_lt (he ▸ hx)
          · exact ne_of_lt (lt_of_le_of_lt (h.1 b hbxs) (he ▸ hx))
        have h1 : (x :: xs).filter (fun x => decide (x.score = c)) = [] :=
          List.filter_eq_nil_iff.mpr (by intro b hb; simpa using hxs b hb)
        simp [List.filter_cons, he, h1]
      · simp [List.filter_cons, he]
    · rw [if_neg hx]
      by_cases hxc : x.score = c <;> simp [List.filter_cons, hxc, ih h.2]

theorem filter_foldl_insertDesc (c : ℚ) :
    ∀ (l acc : List InfluenceRecord),
      acc.Sorted (fun a b => b.score ≤ a.score) →
      (l.foldl (fun acc e => insertDesc e acc) acc).filter (fun x => decide (x.score = c))
        = acc.filter (fun x => decide (x.score = c))
            ++ l.filter (fun x => decide (x.score = c)) := by
  intro l
  induction l with
  | nil => intro acc _; simp
  | cons e l ih =>
    intro acc h
    simp only [List.foldl_cons]
    rw [ih (insertDesc e acc) (sorted_insertDesc h), filter_insertDesc c h]
    by_cases he : e.score = c <;> simp [List.filter_cons, he]

/-! Helper lemmas about the influence score accumulation. -/

theorem foldl_pattern_score (lowm : List Char) :
    ∀ (ps : List RE) (sc : ℚ),
      ps.foldl (fun sc2 p => if reSearch p lowm then sc2 + 1 / 10 else sc2) sc
        = sc + (ps.countP (fun p => reSearch p lowm) : ℚ) / 10 := by
  intro ps
  induction ps with
  | nil => intro sc; simp
  | cons p ps ih =>
    intro sc
    simp only [List.foldl_cons, List.countP_cons, ih]
    by_cases h : reSearch p lowm = true
    · simp only [if_pos h, h]
      push_cast
      ring
    · simp only [if_neg h, h]
      simp

theorem foldl_table_score (lowm : List Char) :
    ∀ (tbl : List (String × List RE)) (sc : ℚ),
      tbl.foldl
          (fun sc tp => tp.2.foldl (fun sc2 p => if reSearch p lowm then sc2 + 1 / 10 else sc2) sc)
          sc
        = sc + (((tbl.map (fun tp => tp.2.countP (fun p => reSearch p lowm))).sum : Nat) : ℚ) / 10 := by
  intro tbl
  induction tbl with
  | nil => intro sc; simp
  | cons tp tbl ih =>
    intro sc
    rw [List.foldl_cons, ih, foldl_pattern_score, List.map_cons, List.sum_cons]
    push_cast
    ring

theorem persuasionScorePart_eq (lowm : List Char) :
    persuasionScorePart lowm = (countMatchingPatterns lowm : ℚ) / 10 := by
  unfold persuasionScorePart countMatchingPatterns
  rw [foldl_table_score]
  ring

theorem persuasionScorePart_nonneg (lowm : List Char) : 0 ≤ persuasionScorePart lowm := by
  rw [persuasionScorePart_eq]
  positivity

theorem msgScore_nonneg (pol : List Char → ℚ) (m : List Char) : 0 ≤ msgScore pol m := by
  unfold msgScore
  have h1 := persuasionScorePart_nonneg (pyLower m)
  have h2 : (0 : ℚ) ≤ if 20 < pyWordCount m then 1 / 20 else 0 := by positivity
  have h3 : (0 : ℚ) ≤ |pol m| * (1 / 5) := by positivity
  have h4 : (0 : ℚ) ≤ if m.contains '?' then 1 / 10 else 0 := by positivity
  linarith

theorem rawScore_eq_sum (pol : List Char → ℚ) :
    ∀ (msgs : List (List Char)) (sc : ℚ),
      msgs.foldl (fun sc m => sc + msgScore pol m) sc = sc + (msgs.map (msgScore pol)).sum := by
  intro msgs
  induction msgs with
  | nil => intro sc; simp
  | cons m msgs ih =>
    intro sc
    simp only [List.foldl_cons, List.map_cons, List.sum_cons, ih]
    ring

theorem rawScore_nonneg (pol : List Char → ℚ) (msgs : List (List Char)) :
    0 ≤ rawScore pol msgs := by
  unfold rawScore
  rw [rawScore_eq_sum]
  have : 0 ≤ (msgs.map (msgScore pol)).sum :=
    List.sum_nonneg (by
      intro x hx
      rcases List.mem_map.mp hx with ⟨m, _, rfl⟩
      exact msgScore_nonneg pol m)
  linarith

theorem normalizedScore_bounds (raw : ℚ) (n : Nat) (hn : 1 ≤ n) (hraw : 0 ≤ raw) :
    0 ≤ normalizedScore raw n ∧ normalizedScore raw n ≤ 1 ∧
      normalizedScore raw n = min (raw / ((n : ℚ) * (1 / 2))) 1 := by
  have hpos : 0 < (n : ℚ) * (1 / 2) := by
    have : (1 : ℚ) ≤ (n : ℚ) := by exact_mod_cast hn
    nlinarith
  unfold normalizedScore
  rw [if_pos hpos]
  refine ⟨le_min (div_nonneg hraw (le_of_lt hpos)) (by norm_num), min_le_right _ _, rfl⟩

/-! Helper lemmas about tactic accumulation. -/

theorem nodup_foldl_pres {α β : Type} (f : List α → β → List α)
    (hf : ∀ (acc : List α) (b : β), acc.Nodup → (f acc b).Nodup) :
    ∀ (l : List β) (acc : List α), acc.Nodup → (l.foldl f acc).Nodup := by
  intro l
  induction l with
  | nil => intro acc h; simpa using h
  | cons b l ih =>
    intro acc h
    exact ih (f acc b) (hf acc b h)

theorem nodup_append_single {α : Type} {l : List α} {a : α} (h : l.Nodup) (ha : a ∉ l) :
    (l ++ [a]).Nodup := by
  simp [List.nodup_append, h, ha]

theorem nodup_msgTacticsStep (lowm : List Char) (tactics : List String)
    (h : tactics.Nodup) : (msgTacticsStep lowm tactics).Nodup := by
  unfold msgTacticsStep
  refine nodup_foldl_pres _ ?_ _ _ h
  intro acc tp hacc
  refine nodup_foldl_pres _ ?_ _ _ hacc
  intro acc2 p hacc2
  by_cases hs : reSearch p lowm = true
  · rw [if_pos hs]
    by_cases hmem : tp.1 ∈ acc2
    · rw [if_pos hmem]; exact hacc2
    · rw [if_neg hmem]; exact nodup_append_single hacc2 hmem
  · rw [if_neg hs]; exact hacc2

theorem nodup_tacticsOf (msgs : List (List Char)) : (tacticsOf msgs).Nodup := by
  unfold tacticsOf
  exact nodup_foldl_pres _ (fun acc m h => nodup_msgTacticsStep (pyLower m) acc h) _ _
    List.nodup_nil

/-! Helper lemmas about speaker grouping. -/

theorem mem_foldl_firstEncounter :
    ∀ (data : List Msg) (acc : List String) (s : String),
      s ∈ data.foldl (fun acc m => if m.speaker ∈ acc then acc else acc ++ [m.speaker]) acc →
        s ∈ acc ∨ ∃ m ∈ data, m.speaker = s := by
  intro data
  induction data with
  | nil => intro acc s h; exact Or.inl (by simpa using h)
  | cons m data ih =>
    intro acc s h
    simp only [List.foldl_cons] at h
    rcases ih _ s h with hacc | ⟨m', hm', hs⟩
    · by_cases hmem : m.speaker ∈ acc
      · rw [if_pos hmem] at hacc
        exact Or.inl hacc
      · rw [if_neg hmem] at hacc
        rcases List.mem_append.mp hacc with h1 | h2
        · exact Or.inl h1
        · exact Or.inr ⟨m, List.mem_cons_self m data, (List.mem_singleton.mp h2).symm⟩
    · exact Or.inr ⟨m', List.mem_cons_of_mem m hm', hs⟩

theorem messagesOf_ne_nil {data : List Msg} {s : String}
    (h : s ∈ firstEncounterSpeakers data) : messagesOf data s ≠ [] := by
  rcases mem_foldl_firstEncounter data [] s h with habs | ⟨m, hm, hs⟩
  · simp at habs
  · intro hnil
    unfold messagesOf at hnil
    have : m ∈ data.filter (fun m => m.speaker = s) :=
      List.mem_filter.mpr ⟨hm, by simp [hs]⟩
    rw [List.map_eq_nil_iff] at hnil
    rw [hnil] at this
    simp at this

/-! Helper lemmas about the emotion channels. -/

theorem emotionRecord_sum (p : ℚ) :
    (emotionRecord p).positive + (emotionRecord p).negative + (emotionRecord p).neutral = 1 := by
  unfold emotionRecord
  rcases le_total 0 p with h | h
  · rw [max_eq_right h, max_eq_left (by linarith), abs_of_nonneg h]
    ring
  · rw [max_eq_left h, max_eq_right (by linarith), abs_of_nonpos h]
    ring

theorem emotion_sums (es : List EmotionTriple)
    (h : ∀ e ∈ es, e.positive + e.negative + e.neutral = 1) :
    (es.map (fun e => e.positive)).sum + (es.map (fun e => e.negative)).sum
      + (es.map (fun e => e.neutral)).sum = (es.length : ℚ) := by
  induction es with
  | nil => simp
  | cons e es ih =>
    simp only [List.map_cons, List.sum_cons, List.length_cons]
    have he := h e (List.mem_cons_self e es)
    have hrest := ih (fun x hx => h x (List.mem_cons_of_mem e hx))
    push_cast
    linarith

theorem avg_emotion_sum (es : List EmotionTriple) (hne : es ≠ [])
    (h : ∀ e ∈ es, e.positive + e.negative + e.neutral = 1) :
    avgQ (es.map (fun e => e.positive)) + avgQ (es.map (fun e => e.negative))
      + avgQ (es.map (fun e => e.neutral)) = 1 := by
  have hn : (es.length : ℚ) ≠ 0 :=
    Nat.cast_ne_zero.mpr (Nat.pos_iff_ne_zero.mp (List.length_pos.mpr hne))
  unfold avgQ
  simp only [List.length_map]
  rw [div_add_div_same, div_add_div_same, emotion_sums es h, div_self hn]

/-- C1: for every input conversation and every sentiment collaborator, every
speaker influence record has its normalized score in [0, 1]; the speaker has
at least one message and the score equals
`min(raw_score / (message_count * 0.5), 1)`, while the normalization maps a
zero message count to 0 (the divide-by-zero guard). -/
theorem influence_score_in_unit_interval
    (pol : List Char → ℚ) (data : List Msg) (e : InfluenceRecord)
    (he : e ∈ calculate_influence_scores pol data) :
    0 ≤ e.score ∧ e.score ≤ 1 ∧ 1 ≤ e.message_count ∧
      e.message_count = (messagesOf data e.speaker).length ∧
      e.score = min (rawScore pol (messagesOf data e.speaker)
            / ((e.message_count : ℚ) * (1 / 2))) 1 ∧
      (∀ raw : ℚ, normalizedScore raw 0 = 0) := by
  have hmem : e ∈ unsortedInfluence pol data := mem_sortDescInfluence.mp he
  rcases List.mem_map.mp hmem with ⟨s, hs, rfl⟩
  have hne : messagesOf data s ≠ [] := messagesOf_ne_nil hs
  have hlen : 1 ≤ (messagesOf data s).length := List.length_pos.mpr hne
  obtain ⟨h0, h1, heq⟩ :=
    normalizedScore_bounds (rawScore pol (messagesOf data s)) (messagesOf data s).length hlen
      (rawScore_nonneg pol (messagesOf data s))
  refine ⟨h0, h1, hlen, rfl, heq, ?_⟩
  intro raw
  unfold normalizedScore
  norm_num

/-- C1 witness: the bounds at a concrete one-message conversation. -/
theorem influence_score_in_unit_interval_witness :
    0 ≤ (influenceEntry (fun _ => 0) [⟨"a", "hi".toList⟩] "a").score ∧
      (influenceEntry (fun _ => 0) [⟨"a", "hi".toList⟩] "a").score ≤ 1 ∧
      1 ≤ (influenceEntry (fun _ => 0) [⟨"a", "hi".toList⟩] "a").message_count ∧
      (influenceEntry (fun _ => 0) [⟨"a", "hi".toList⟩] "a").message_count
        = (messagesOf [⟨"a", "hi".toList⟩]
            (influenceEntry (fun _ => 0) [⟨"a", "hi".toList⟩] "a").speaker).length ∧
      (influenceEntry (fun _ => 0) [⟨"a", "hi".toList⟩] "a").score
        = min ((rawScore (fun _ => 0) (messagesOf [⟨"a", "hi".toList⟩]
              (influenceEntry (fun _ => 0) [⟨"a", "hi".toList⟩] "a").speaker))
            / (((influenceEntry (fun _ => 0) [⟨"a", "hi".toList⟩] "a").message_count : ℚ)
                * (1 / 2))) 1 ∧
      (∀ raw : ℚ, normalizedScore raw 0 = 0) :=
  influence_score_in_unit_interval (fun _ => 0) [⟨"a", "hi".toList⟩]
    (influenceEntry (fun _ => 0) [⟨"a", "hi".toList⟩] "a") (List.mem_singleton_self _)

/-- C3 counterexample: on the utterance "i feel love" exactly one
persuasion category (emotional appeal) matches, yet the persuasion part of
the raw score is 0.2, not 0.1: the source adds 0.1 per matching pattern,
not per matching category. -/
theorem persuasion_per_category_counterexample :
    persuasionScorePart (pyLower "i feel love".toList) = 1 / 5 ∧
      countMatchingCategories (pyLower "i feel love".toList) = 1 ∧
      ¬(persuasionScorePart (pyLower "i feel love".toList)
          = (countMatchingCategories (pyLower "i feel love".toList) : ℚ) * (1 / 10)) := by
  have h2 : countMatchingPatterns (pyLower "i feel love".toList) = 2 := by decide
  have h1 : countMatchingCategories (pyLower "i feel love".toList) = 1 := by decide
  refine ⟨?_, h1, ?_⟩
  · rw [persuasionScorePart_eq, h2]
    norm_num
  · rw [persuasionScorePart_eq, h2, h1]
    norm_num

/-- C3 (amended): each persuasion-indicator pattern that matches the
utterance contributes exactly +0.1 to the raw score (a category with
several matching patterns contributes 0.1 per pattern), and each tactic
name is recorded at most once per speaker. -/
theorem persuasion_per_pattern_amended :
    (∀ lowm : List Char,
      persuasionScorePart lowm = (countMatchingPatterns lowm : ℚ) / 10) ∧
    (∀ (pol : List Char → ℚ) (data : List Msg) (e : InfluenceRecord),
      e ∈ calculate_influence_scores pol data → e.tactics.Nodup) := by
  constructor
  · exact persuasionScorePart_eq
  · intro pol data e he
    have hmem : e ∈ unsortedInfluence pol data := mem_sortDescInfluence.mp he
    rcases List.mem_map.mp hmem with ⟨s, _, rfl⟩
    exact nodup_tacticsOf (messagesOf data s)

/-- C3 (amended) witness: the tactics list of a concrete record. -/
theorem persuasion_per_pattern_amended_witness :
    (influenceEntry (fun _ => 0) [⟨"a", "i feel love".toList⟩] "a").tactics.Nodup :=
  persuasion_per_pattern_amended.2 (fun _ => 0) [⟨"a", "i feel love".toList⟩]
    (influenceEntry (fun _ => 0) [⟨"a", "i feel love".toList⟩] "a") (List.mem_singleton_self _)

/-- C9: the influence list is ordered by descending normalized score, and
records with equal scores appear exactly as in the unsorted list, which
lists speakers in first-encounter order (stable tie-break). -/
theorem influence_scores_sorted_descending_stable (pol : List Char → ℚ) (data : List Msg) :
    (calculate_influence_scores pol data).Sorted (fun a b => b.score ≤ a.score) ∧
    (∀ c : ℚ, (calculate_influence_scores pol data).filter (fun x => decide (x.score = c))
        = (unsortedInfluence pol data).filter (fun x => decide (x.score = c))) ∧
    (unsortedInfluence pol data).map (fun e => e.speaker) = firstEncounterSpeakers data := by
  refine ⟨?_, ?_, ?_⟩
  · exact sorted_foldl_insertDesc (unsortedInfluence pol data) [] (by simp)
  · intro c
    have h := filter_foldl_insertDesc c (unsortedInfluence pol data) [] (by simp)
    simpa using h
  · rw [unsortedInfluence, List.map_map]
    exact List.map_id _

/-- C10: for each message the derived positive, negative and neutral
channels (from a polarity in [-1, 1]) sum to one, and therefore every
per-speaker averaged emotion triple sums to one. -/
theorem emotion_channels_sum_to_one :
    (∀ p : ℚ, -1 ≤ p → p ≤ 1 →
      (emotionRecord p).positive + (emotionRecord p).negative + (emotionRecord p).neutral = 1 ∧
      (emotionRecord p).positive = max 0 p ∧ (emotionRecord p).negative = max 0 (-p) ∧
      (emotionRecord p).neutral = 1 - |p|) ∧
    (∀ (pol : List Char → ℚ) (data : List Msg) (s : String) (t : EmotionTriple),
      (s, t) ∈ analyze_emotions pol data → t.positive + t.negative + t.neutral = 1) := by
  constructor
  · intro p _ _
    exact ⟨emotionRecord_sum p, rfl, rfl, rfl⟩
  · intro pol data s t hmem
    simp only [analyze_emotions, List.mem_map] at hmem
    rcases hmem with ⟨s', hs', heq⟩
    have ht : t = ⟨avgQ (((messagesOf data s').map (fun m => emotionRecord (pol m))).map
          (fun e => e.positive)),
        avgQ (((messagesOf data s').map (fun m => emotionRecord (pol m))).map
          (fun e => e.negative)),
        avgQ (((messagesOf data s').map (fun m => emotionRecord (pol m))).map
          (fun e => e.neutral))⟩ := by
      have := congrArg Prod.snd heq
      simpa using this.symm
    rw [ht]
    apply avg_emotion_sum
    · simp only [ne_eq, List.map_eq_nil_iff]
      exact messagesOf_ne_nil hs'
    · intro e hee
      rcases List.mem_map.mp hee with ⟨m, _, rfl⟩
      exact emotionRecord_sum (pol m)

/-- C10 witness: the channel identities at polarity one half, and the
averaged triple of a concrete conversation. -/
theorem emotion_channels_sum_to_one_witness :
    ((emotionRecord (1 / 2)).positive + (emotionRecord (1 / 2)).negative
        + (emotionRecord (1 / 2)).neutral = 1 ∧
      (emotionRecord (1 / 2)).positive = max 0 (1 / 2) ∧
      (emotionRecord (1 / 2)).negative = max 0 (-(1 / 2)) ∧
      (emotionRecord (1 / 2)).neutral = 1 - |(1 / 2 : ℚ)|) ∧
    ((⟨avgQ (((messagesOf [⟨"a", "hi".toList⟩] "a").map
            (fun m => emotionRecord ((fun _ => (0 : ℚ)) m))).map (fun e => e.positive)),
        avgQ (((messagesOf [⟨"a", "hi".toList⟩] "a").map
            (fun m => emotionRecord ((fun _ => (0 : ℚ)) m))).map (fun e => e.negative)),
        avgQ (((messagesOf [⟨"a", "hi".toList⟩] "a").map
            (fun m => emotionRecord ((fun _ => (0 : ℚ)) m))).map (fun e => e.neutral))⟩
          : EmotionTriple).positive
      + (⟨avgQ (((messagesOf [⟨"a", "hi".toList⟩] "a").map
            (fun m => emotionRecord ((fun _ => (0 : ℚ)) m))).map (fun e => e.positive)),
        avgQ (((messagesOf [⟨"a", "hi".toList⟩] "a").map
            (fun m => emotionRecord ((fun _ => (0 : ℚ)) m))).map (fun e => e.negative)),
        avgQ (((messagesOf [⟨"a", "hi".toList⟩] "a").map
            (fun m => emotionRecord ((fun _ => (0 : ℚ)) m))).map (fun e => e.neutral))⟩
          : EmotionTriple).negative
      + (⟨avgQ (((messagesOf [⟨"a", "hi".toList⟩] "a").map
            (fun m => emotionRecord ((fun _ => (0 : ℚ)) m))).map (fun e => e.positive)),
        avgQ (((messagesOf [⟨"a", "hi".toList⟩] "a").map
            (fun m => emotionRecord ((fun _ => (0 : ℚ)) m))).map (fun e => e.negative)),
        avgQ (((messagesOf [⟨"a", "hi".toList⟩] "a").map
            (fun m => emotionRecord ((fun _ => (0 : ℚ)) m))).map (fun e => e.neutral))⟩
          : EmotionTriple).neutral = 1) :=
  ⟨emotion_channels_sum_to_one.1 (1 / 2) (by norm_num) (by norm_num),
   emotion_channels_sum_to_one.2 (fun _ => 0) [⟨"a", "hi".toList⟩] "a" _
     (List.mem_singleton_self _)⟩

/-! Helper lemmas about the interaction walk. -/

theorem bump_apply (f : List Char × List Char → Nat) (k p : List Char × List Char) :
    bump f k p = if p = k then f p + 1 else f p := rfl

theorem adjFrom_self :
    ∀ (l : List (List Char)) (last : Option (List Char)) (A : List Char),
      adjFrom last l A A = 0 := by
  intro l
  induction l with
  | nil => intro last A; rfl
  | cons x rest ih =>
    intro last A
    simp only [adjFrom]
    rw [if_neg (by rintro ⟨_, _, hAA⟩; exact hAA rfl)]
    simpa using ih (some x) A

theorem adjFrom_some_eq_adjCount {A B : List Char} (hAB : A ≠ B) :
    ∀ (l : List (List Char)) (x : List Char),
      adjFrom (some x) l A B = adjCount (x :: l) A B := by
  intro l
  induction l with
  | nil => intro x; simp [adjFrom, adjCount]
  | cons y rest ih =>
    intro x
    simp only [adjFrom]
    have hzip : adjCount (x :: y :: rest) A B
        = (if x = A ∧ y = B then 1 else 0) + adjCount (y :: rest) A B := by
      unfold adjCount
      rw [show (x :: y :: rest).zip (x :: y :: rest).tail
            = (x, y) :: ((y :: rest).zip (y :: rest).tail) from rfl]
      rw [List.filter_cons]
      by_cases h1 : x = A
      · by_cases h2 : y = B
        · simp only [h1, h2, decide_True, Bool.and_self, if_true]
          simp [List.length_cons]
          omega
        · simp [h1, h2]
      · simp [h1]
    rw [hzip, ih y]
    congr 1
    by_cases h1 : x = A
    · by_cases h2 : y = B
      · simp [h1, h2, hAB]
      · simp [h1, h2]
    · simp [h1]

theorem adjFrom_none_eq_adjCount {A B : List Char} (hAB : A ≠ B) (l : List (List Char)) :
    adjFrom none l A B = adjCount l A B := by
  cases l with
  | nil => rfl
  | cons x rest =>
    simp only [adjFrom]
    rw [if_neg (by rintro ⟨h, _⟩; cases h)]
    rw [adjFrom_some_eq_adjCount hAB rest x]
    simp

theorem interFold_weights :
    ∀ (msgs : List (Option (List Char))) (f : List Char × List Char → Nat)
      (last : Option (List Char)) (A B : List Char), lastOK last →
      (msgs.foldl interStep ⟨f, last⟩).weights (A, B)
        = f (A, B) + adjFrom last (resolvableSpeakers msgs) A B := by
  intro msgs
  induction msgs with
  | nil =>
    intro f last A B _
    simp [resolvableSpeakers, adjFrom]
  | cons o msgs ih =>
    intro f last A B h
    rw [List.foldl_cons]
    cases o with
    | none =>
      rw [show interStep ⟨f, last⟩ none = ⟨f, last⟩ from rfl]
      rw [show resolvableSpeakers (none :: msgs) = resolvableSpeakers msgs from rfl]
      exact ih f last A B h
    | some cur =>
      by_cases hc : cur.isEmpty
      · have hnil : cur = [] := List.isEmpty_iff.mp hc
        subst hnil
        rw [show interStep ⟨f, last⟩ (some []) = ⟨f, last⟩ from rfl]
        rw [show resolvableSpeakers (some [] :: msgs) = resolvableSpeakers msgs from rfl]
        exact ih f last A B h
      · have hcur : cur ≠ [] := by simpa [List.isEmpty_iff] using hc
        have hcb : cur.isEmpty = false := by
          cases hcc : cur.isEmpty
          · rfl
          · exact absurd hcc hc
        have hres : resolvableSpeakers (some cur :: msgs) = cur :: resolvableSpeakers msgs := by
          simp [resolvableSpeakers, List.filterMap_cons, hcb, hcur]
        rw [hres]
        cases last with
        | none =>
          rw [show interStep ⟨f, none⟩ (some cur) = ⟨f, some cur⟩ by simp [interStep, hcb]]
          rw [ih f (some cur) A B hcur]
          simp only [adjFrom]
          rw [if_neg (by rintro ⟨habs, _⟩; cases habs)]
          omega
        | some l =>
          have hl : l ≠ [] := h
          have hlb : l.isEmpty = false := by simpa [List.isEmpty_iff] using hl
          by_cases hlc : l = cur
          · rw [show interStep ⟨f, some l⟩ (some cur) = ⟨f, some cur⟩ by
              simp [interStep, hcb, hlb, hlc]]
            rw [ih f (some cur) A B hcur]
            simp only [adjFrom]
            rw [if_neg (by
              rintro ⟨hA, hB, hAB⟩
              exact hAB (by
                have : l = A := by injection hA
                rw [← this, ← hB, hlc]))]
            omega
          · rw [show interStep ⟨f, some l⟩ (some cur) = ⟨bump f (l, cur), some cur⟩ by
              simp [interStep, hc, hlb, hlc]]
            rw [ih (bump f (l, cur)) (some cur) A B hcur]
            rw [bump_apply]
            simp only [adjFrom]
            by_cases hk : (A, B) = (l, cur)
            · have hA : A = l := congrArg Prod.fst hk
              have hB : B = cur := congrArg Prod.snd hk
              rw [if_pos hk, if_pos ⟨by rw [hA], by rw [hB], by rw [hA, hB]; exact hlc⟩]
              omega
            · rw [if_neg hk, if_neg (by
                rintro ⟨hA, hB, _⟩
                exact hk (by
                  have : l = A := by injection hA
                  rw [← this, ← hB]))]
              omega

/-- C4: the interaction graph never contains a self-loop edge; for distinct
speakers the weight of the edge (A, B) equals the number of positions where
resolvable speaker B immediately follows resolvable speaker A; and
`last_speaker` is updated to the current speaker after every
speaker-resolvable message. -/
theorem interaction_graph_no_self_loops (msgs : List (Option (List Char))) (A B : List Char) :
    ¬hasEdge msgs (A, A) ∧
    (A ≠ B → (interactionWalk msgs).weights (A, B) = adjCount (resolvableSpeakers msgs) A B) ∧
    (∀ (st : InterState) (cur : List Char), cur ≠ [] →
      (interStep st (some cur)).last = some cur) := by
  refine ⟨?_, ?_, ?_⟩
  · unfold hasEdge interactionWalk
    rw [interFold_weights msgs (fun _ => 0) none A A trivial, adjFrom_self]
    simp
  · intro hAB
    unfold interactionWalk
    rw [interFold_weights msgs (fun _ => 0) none A B trivial,
      adjFrom_none_eq_adjCount hAB]
    simp
  · intro st cur hc
    have hcb : cur.isEmpty = false := by simpa [List.isEmpty_iff] using hc
    cases st with
    | mk w last =>
      cases last with
      | none => simp [interStep, hcb]
      | some l =>
        simp only [interStep, hcb]
        rw [if_neg (by simp)]
        split <;> rfl

/-- C4 witness: the three properties at a concrete extracted transcript. -/
theorem interaction_graph_no_self_loops_witness :
    ¬hasEdge [some "a".toList, some "b".toList, some "a".toList]
        ("a".toList, "a".toList) ∧
      (interactionWalk [some "a".toList, some "b".toList, some "a".toList]).weights
          ("a".toList, "b".toList)
        = adjCount (resolvableSpeakers
            [some "a".toList, some "b".toList, some "a".toList]) "a".toList "b".toList ∧
      (∀ (st : InterState) (cur : List Char), cur ≠ [] →
        (interStep st (some cur)).last = some cur) :=
  have h := interaction_graph_no_self_loops
    [some "a".toList, some "b".toList, some "a".toList] "a".toList "b".toList
  ⟨h.1, h.2.1 (by decide), h.2.2⟩

/-- C2 counterexample: the line "12: some text" does yield a speaker: the
strict pattern accepts it (digits are word characters) and returns "12";
the purely-numeric rejection lives only in the fallback branch. -/
theorem numeric_prefix_speaker_counterexample :
    get_speaker_from_line_txt ("12: some text".toList) = some ("12".toList) := by
  decide

/-- C2 (amended): "12: some text" yields speaker "12" via the strict
pattern; "Dr. Smith: some text" yields "Dr. Smith"; the purely-numeric
rejection applies only in the fallback branch, reached exactly when the
strict pattern fails — for example "12:text" (no whitespace after the
colon) yields no speaker. -/
theorem speaker_line_extraction_amended :
    get_speaker_from_line_txt ("12: some text".toList) = some ("12".toList) ∧
    get_speaker_from_line_txt ("Dr. Smith: some text".toList) = some ("Dr. Smith".toList) ∧
    get_speaker_from_line_txt ("12:text".toList) = none ∧
    (∀ line g : List Char, strictMatch line = some g →
      get_speaker_from_line_txt line = some (pyStrip g)) ∧
    (∀ line : List Char, strictMatch line = none →
      get_speaker_from_line_txt line =
        (if line.contains ':' then
          (if (pyStrip (line.takeWhile (fun c => c ≠ ':'))).length < 50
              && !pyIsDigit (pyStrip (line.takeWhile (fun c => c ≠ ':'))) then
            some (pyStrip (line.takeWhile (fun c => c ≠ ':')))
          else none)
        else none)) := by
  refine ⟨by decide, by decide, by decide, ?_, ?_⟩
  · intro line g h
    unfold get_speaker_from_line_txt
    rw [h]
  · intro line h
    unfold get_speaker_from_line_txt
    rw [h]

/-- C2 (amended) witness: the strict-pattern clause at a concrete line. -/
theorem speaker_line_extraction_amended_witness :
    strictMatch ("Dr. Smith: some text".toList) = some ("Dr. Smith".toList) ∧
    get_speaker_from_line_txt ("Dr. Smith: some text".toList)
      = some (pyStrip ("Dr. Smith".toList)) :=
  ⟨by decide, speaker_line_extraction_amended.2.2.2.1 _ _ (by decide)⟩

/-- C6 counterexample: on "either we win or we lose" the token condition
(a literal "either " followed later by " or ") holds, yet the
false-dichotomy scan detects nothing: the generic pattern first requires
the literal substring "either...or" in the text. -/
theorem either_or_generic_counterexample :
    eitherOrTokens (pyLower ("either we win or we lose".toList)) = true ∧
    fdScan FALSE_DICHOTOMY_PHRASES (pyLower ("either we win or we lose".toList)) = none := by
  exact ⟨by decide, by decide⟩

/-! Helper lemmas about the first-match-wins detector. -/

theorem firstMatchEntry_eq_find (ty : String) :
    ∀ (kws : List (List Char)) (t : List Char),
      firstMatchEntry ty kws t
        = (kws.find? (fun k => !(findallWB k t).isEmpty)).map
            (fun k => Finding.keywords ty (findallWB k t).dedup) := by
  intro kws
  induction kws with
  | nil => intro t; rfl
  | cons k rest ih =>
    intro t
    cases hh : (findallWB k t).isEmpty
    · rw [List.find?_cons_of_pos _ (by simp [hh])]
      simp [firstMatchEntry, hh]
    · rw [List.find?_cons_of_neg _ (by simp [hh])]
      simp [firstMatchEntry, hh, ih]

theorem firstMatchEntry_type {ty : String} {kws : List (List Char)} {t : List Char}
    {f : Finding} (h : firstMatchEntry ty kws t = some f) : findingType f = ty := by
  rw [firstMatchEntry_eq_find] at h
  rcases Option.map_eq_some'.mp h with ⟨k, _, hk⟩
  rw [← hk]
  rfl

theorem firstMatchEntry_isSome_of_match (ty : String) {kws : List (List Char)}
    {t k : List Char} (hk : k ∈ kws) (hne : findallWB k t ≠ []) :
    ∃ f, firstMatchEntry ty kws t = some f := by
  rw [firstMatchEntry_eq_find]
  have : (kws.find? (fun k => !(findallWB k t).isEmpty)).isSome := by
    rw [List.find?_isSome]
    exact ⟨k, hk, by simpa [List.isEmpty_iff] using hne⟩
  rcases Option.isSome_iff_exists.mp this with ⟨k', hk'⟩
  exact ⟨Finding.keywords ty (findallWB k' t).dedup, by rw [hk']; rfl⟩

theorem fdScan_some :
    ∀ (phrases : List (List Char)) (lowt : List Char) (f : Finding),
      fdScan phrases lowt = some f →
        ∃ p ∈ phrases, f = .phrase "False Dichotomy" p ∧ isSubstr (pyLower p) lowt = true := by
  intro phrases
  induction phrases with
  | nil => intro lowt f h; cases h
  | cons p rest ih =>
    intro lowt f h
    simp only [fdScan] at h
    split_ifs at h with h1 h2 h3
    · exact ⟨p, List.mem_cons_self p rest, (Option.some.inj h).symm, h1⟩
    · rcases ih lowt f h with ⟨q, hq, hf, hs⟩
      exact ⟨q, List.mem_cons_of_mem p hq, hf, hs⟩
    · exact ⟨p, List.mem_cons_self p rest, (Option.some.inj h).symm, h1⟩
    · rcases ih lowt f h with ⟨q, hq, hf, hs⟩
      exact ⟨q, List.mem_cons_of_mem p hq, hf, hs⟩

theorem fdScan_type {phrases : List (List Char)} {lowt : List Char} {f : Finding}
    (h : fdScan phrases lowt = some f) : findingType f = "False Dichotomy" := by
  rcases fdScan_some phrases lowt f h with ⟨p, _, hf, _⟩
  rw [hf]
  rfl

theorem countP_toList_append_le (a b : Option Finding) (ty : String)
    (hb : ∀ f, b = some f → findingType f ≠ ty) :
    (a.toList ++ b.toList).countP (fun f => findingType f = ty) ≤ 1 := by
  cases a with
  | none =>
    cases b with
    | none => simp
    | some fb =>
      have := hb fb rfl
      simp [List.countP_cons, this]
  | some fa =>
    cases b with
    | none =>
      simp [List.countP_cons]
      split <;> omega
    | some fb =>
      have := hb fb rfl
      simp [List.countP_cons, this]
      split <;> omega

theorem countP_toList_append_le' (a b : Option Finding) (ty : String)
    (ha : ∀ f, a = some f → findingType f ≠ ty) :
    (a.toList ++ b.toList).countP (fun f => findingType f = ty) ≤ 1 := by
  cases a with
  | none =>
    cases b with
    | none => simp
    | some fb =>
      simp [List.countP_cons]
      split <;> omega
  | some fa =>
    have := ha fa rfl
    cases b with
    | none => simp [List.countP_cons, this]
    | some fb =>
      simp [List.countP_cons, this]
      split <;> omega

/-- C5: each detector category fires at most once per utterance; a keyword
category's single entry carries the deduplicated matches of the first
keyword whose findall is non-empty (and scanning of the remaining keywords
of that category stops there); a category fires whenever any of its
keywords matches; the fallacy and manipulation lists are the independent
concatenations of the per-category scans, and all four categories can fire
together on one utterance. -/
theorem fallacy_first_match_wins (t : List Char) :
    ((detectOne t).fallacies.countP (fun f => findingType f = "Ad Hominem") ≤ 1 ∧
     (detectOne t).fallacies.countP (fun f => findingType f = "False Dichotomy") ≤ 1 ∧
     (detectOne t).manipulations.countP (fun f => findingType f = "Guilt Tripping") ≤ 1 ∧
     (detectOne t).manipulations.countP
       (fun f => findingType f = "Gaslighting (potential)") ≤ 1) ∧
    (∀ (ty : String) (kws : List (List Char)),
      firstMatchEntry ty kws t
        = (kws.find? (fun k => !(findallWB k t).isEmpty)).map
            (fun k => Finding.keywords ty (findallWB k t).dedup)) ∧
    (∀ k ∈ AD_HOMINEM_KEYWORDS, findallWB k t ≠ [] →
      ∃ f ∈ (detectOne t).fallacies, findingType f = "Ad Hominem") ∧
    (∀ k ∈ GUILT_TRIPPING_KEYWORDS, findallWB k t ≠ [] →
      ∃ f ∈ (detectOne t).manipulations, findingType f = "Guilt Tripping") ∧
    (∀ k ∈ GASLIGHTING_KEYWORDS, findallWB k t ≠ [] →
      ∃ f ∈ (detectOne t).manipulations, findingType f = "Gaslighting (potential)") ∧
    (detectOne t).fallacies
      = (firstMatchEntry "Ad Hominem" AD_HOMINEM_KEYWORDS t).toList
          ++ (fdScan FALSE_DICHOTOMY_PHRASES (pyLower t)).toList ∧
    (detectOne t).manipulations
      = (firstMatchEntry "Guilt Tripping" GUILT_TRIPPING_KEYWORDS t).toList
          ++ (firstMatchEntry "Gaslighting (potential)" GASLIGHTING_KEYWORDS t).toList ∧
    ((detectOne ("idiot no middle ground you owe me that never happened".toList)).fallacies.length
        = 2 ∧
      (detectOne
          ("idiot no middle ground you owe me that never happened".toList)).manipulations.length
        = 2) := by
  refine ⟨⟨?_, ?_, ?_, ?_⟩, fun ty kws => firstMatchEntry_eq_find ty kws t, ?_, ?_, ?_,
    rfl, rfl, by decide, by decide⟩
  · exact countP_toList_append_le _ _ _
      (fun f hf => by rw [fdScan_type hf]; decide)
  · exact countP_toList_append_le' _ _ _
      (fun f hf => by rw [firstMatchEntry_type hf]; decide)
  · exact countP_toList_append_le _ _ _
      (fun f hf => by rw [firstMatchEntry_type hf]; decide)
  · exact countP_toList_append_le' _ _ _
      (fun f hf => by rw [firstMatchEntry_type hf]; decide)
  · intro k hk hne
    rcases firstMatchEntry_isSome_of_match "Ad Hominem" hk hne with ⟨f, hf⟩
    exact ⟨f, by simp [detectOne, hf], firstMatchEntry_type hf⟩
  · intro k hk hne
    rcases firstMatchEntry_isSome_of_match "Guilt Tripping" hk hne with ⟨f, hf⟩
    exact ⟨f, by simp [detectOne, hf], firstMatchEntry_type hf⟩
  · intro k hk hne
    rcases firstMatchEntry_isSome_of_match "Gaslighting (potential)" hk hne with ⟨f, hf⟩
    exact ⟨f, by simp [detectOne, hf], firstMatchEntry_type hf⟩

/-- C5 witness: the category-fires clause at a concrete utterance. -/
theorem fallacy_first_match_wins_witness :
    ∃ f ∈ (detectOne ("you idiot".toList)).fallacies, findingType f = "Ad Hominem" :=
  (fallacy_first_match_wins ("you idiot".toList)).2.2.1 ("idiot".toList)
    (by decide) (by decide)

/-- C6 (amended): the generic "either...or" pattern fires exactly when the
literal substring "either...or" occurs in the lowercased text and,
additionally, a literal "either " token is followed later in the text by a
literal " or " token; the bare token condition alone does not fire it. -/
theorem fdScan_cons (p : List Char) (rest : List (List Char)) (lowt : List Char) :
    fdScan (p :: rest) lowt =
      if isSubstr (pyLower p) lowt = true then
        if p = kw "either...or" then
          if eitherOrTokens lowt = true then some (.phrase "False Dichotomy" p)
          else fdScan rest lowt
        else some (.phrase "False Dichotomy" p)
      else fdScan rest lowt := rfl

theorem either_or_notin_tail {p : List Char} (hp : p ∈ FALSE_DICHOTOMY_PHRASES.tail)
    (hpe : p = kw "either...or") : False := by
  rw [hpe] at hp
  revert hp
  decide

theorem either_or_generic_amended (t : List Char) :
    fdScan FALSE_DICHOTOMY_PHRASES (pyLower t)
        = some (.phrase "False Dichotomy" (kw "either...or"))
      ↔ (isSubstr (kw "either...or") (pyLower t) = true
          ∧ eitherOrTokens (pyLower t) = true) := by
  have hlow : pyLower (kw "either...or") = kw "either...or" := by decide
  have hexp : FALSE_DICHOTOMY_PHRASES = kw "either...or" :: FALSE_DICHOTOMY_PHRASES.tail := rfl
  constructor
  · intro h
    rw [hexp, fdScan_cons, hlow] at h
    by_cases h1 : isSubstr (kw "either...or") (pyLower t) = true
    · rw [if_pos h1, if_pos rfl] at h
      by_cases h2 : eitherOrTokens (pyLower t) = true
      · exact ⟨h1, h2⟩
      · rw [if_neg h2] at h
        rcases fdScan_some _ _ _ h with ⟨p, hp, hf, _⟩
        exact (either_or_notin_tail hp ((Finding.phrase.inj hf).2.symm)).elim
    · rw [if_neg h1] at h
      rcases fdScan_some _ _ _ h with ⟨p, hp, hf, _⟩
      exact (either_or_notin_tail hp ((Finding.phrase.inj hf).2.symm)).elim
  · rintro ⟨h1, h2⟩
    rw [hexp, fdScan_cons, hlow, if_pos h1, if_pos rfl, if_pos h2]

/-- C7: an empty, whitespace-only, or non-string element yields, in each of
the three per-utterance analyzers, exactly the error-marked record with
zero scores and empty lists — independently of the emotion primitive, so
the primitive is never invoked for it — while every other element of the
list is processed exactly as it would be on its own (no abort), and the
result length always equals the input length. -/
theorem invalid_text_error_records
    (pre post : List PyVal) (v : PyVal)
    (prim : List Char → Except String (List (String × ℚ)))
    (hv : invalidText v = true) :
    analyze_emotions_with_text2emotion prim (pre ++ v :: post)
        = analyze_emotions_with_text2emotion prim pre
          ++ ⟨v, [], some "Empty or invalid input text"⟩
            :: analyze_emotions_with_text2emotion prim post ∧
    calculate_persuasion_scores_heuristic (pre ++ v :: post)
        = calculate_persuasion_scores_heuristic pre
          ++ ⟨v, 0, 0, 0, [], [], [], some "Empty or invalid input text"⟩
            :: calculate_persuasion_scores_heuristic post ∧
    detect_fallacies_and_manipulation_heuristic (pre ++ v :: post)
        = detect_fallacies_and_manipulation_heuristic pre
          ++ ⟨v, [], [], some "Empty or invalid input text"⟩
            :: detect_fallacies_and_manipulation_heuristic post ∧
    (analyze_emotions_with_text2emotion prim (pre ++ v :: post)).length
        = pre.length + 1 + post.length ∧
    (calculate_persuasion_scores_heuristic (pre ++ v :: post)).length
        = pre.length + 1 + post.length ∧
    (detect_fallacies_and_manipulation_heuristic (pre ++ v :: post)).length
        = pre.length + 1 + post.length := by
  refine ⟨?_, ?_, ?_, ?_, ?_, ?_⟩
  · simp [analyze_emotions_with_text2emotion, emoRecordOf, hv]
  · simp [calculate_persuasion_scores_heuristic, persRecordOf, hv]
  · simp [detect_fallacies_and_manipulation_heuristic, fallacyRecordOf, hv]
  · simp [analyze_emotions_with_text2emotion]
    omega
  · simp [calculate_persuasion_scores_heuristic]
    omega
  · simp [detect_fallacies_and_manipulation_heuristic]
    omega

/-- C7 witness: an empty string surrounded by a valid element. -/
theorem invalid_text_error_records_witness :
    analyze_emotions_with_text2emotion (fun _ => Except.ok []) ([] ++ .str [] :: [.str ("hi".toList)])
        = analyze_emotions_with_text2emotion (fun _ => Except.ok []) []
          ++ ⟨.str [], [], some "Empty or invalid input text"⟩
            :: analyze_emotions_with_text2emotion (fun _ => Except.ok []) [.str ("hi".toList)] ∧
    calculate_persuasion_scores_heuristic ([] ++ .str [] :: [.str ("hi".toList)])
        = calculate_persuasion_scores_heuristic []
          ++ ⟨.str [], 0, 0, 0, [], [], [], some "Empty or invalid input text"⟩
            :: calculate_persuasion_scores_heuristic [.str ("hi".toList)] ∧
    detect_fallacies_and_manipulation_heuristic ([] ++ .str [] :: [.str ("hi".toList)])
        = detect_fallacies_and_manipulation_heuristic []
          ++ ⟨.str [], [], [], some "Empty or invalid input text"⟩
            :: detect_fallacies_and_manipulation_heuristic [.str ("hi".toList)] ∧
    (analyze_emotions_with_text2emotion (fun _ => Except.ok [])
        ([] ++ .str [] :: [.str ("hi".toList)])).length
        = List.length ([] : List PyVal) + 1 + List.length [PyVal.str ("hi".toList)] ∧
    (calculate_persuasion_scores_heuristic ([] ++ .str [] :: [.str ("hi".toList)])).length
        = List.length ([] : List PyVal) + 1 + List.length [PyVal.str ("hi".toList)] ∧
    (detect_fallacies_and_manipulation_heuristic ([] ++ .str [] :: [.str ("hi".toList)])).length
        = List.length ([] : List PyVal) + 1 + List.length [PyVal.str ("hi".toList)] :=
  invalid_text_error_records [] [.str ("hi".toList)] (.str [])
    (fun _ => Except.ok []) (by decide)

/-! Helper lemmas about the speaker counter. -/

theorem mem_foldl_firstSeen_of_mem :
    ∀ (l acc : List (List Char)) (x : List Char), x ∈ acc →
      x ∈ l.foldl (fun acc s => if s ∈ acc then acc else acc ++ [s]) acc := by
  intro l
  induction l with
  | nil => intro acc x h; simpa using h
  | cons s l ih =>
    intro acc x h
    rw [List.foldl_cons]
    apply ih
    by_cases hs : s ∈ acc
    · rw [if_pos hs]; exact h
    · rw [if_neg hs]; exact List.mem_append_left _ h

theorem firstSeen_cons_ne_nil (s : List Char) (rest : List (List Char)) :
    firstSeen (s :: rest) ≠ [] := by
  intro h
  have hmem : s ∈ firstSeen (s :: rest) := by
    unfold firstSeen
    rw [List.foldl_cons]
    exact mem_foldl_firstSeen_of_mem rest _ s (by simp)
  rw [h] at hmem
  exact absurd hmem (List.not_mem_nil s)

theorem speakerCounter_empty_iff (sp : List (List Char)) :
    speakerCounter sp = [] ↔ sp = [] := by
  constructor
  · intro h
    cases hsp : sp with
    | nil => rfl
    | cons s rest =>
      rw [hsp] at h
      unfold speakerCounter at h
      rw [List.map_eq_nil_iff] at h
      exact absurd h (firstSeen_cons_ne_nil s rest)
  · intro h
    rw [h]
    rfl

/-- C8: speaker statistics returns the explicit no-speakers error exactly
when zero speakers were identifiable, never an empty-but-successful
result; and in the pipeline this error only lands in the errors list and
the speaker-statistics section while every other section is still the one
computed by its own analysis. -/
theorem no_speakers_error_isolated
    (msgs : List (Option (List Char))) (texts : Except String (List PyVal))
    (prim : List Char → Except String (List (String × ℚ)))
    (h : resolvableSpeakers msgs = []) :
    extract_speaker_statistics msgs
        = .err "Could not identify any speakers or file might be empty/misformatted for speakers." ∧
    (run_pipeline prim msgs texts).1.speaker_statistics = extract_speaker_statistics msgs ∧
    ("Speaker statistics error: Could not identify any speakers or file might be empty/misformatted for speakers.")
        ∈ (run_pipeline prim msgs texts).2 ∧
    (run_pipeline prim msgs texts).1.emotion_analysis = (textSections prim texts).1.1 ∧
    (run_pipeline prim msgs texts).1.persuasion_analysis = (textSections prim texts).1.2.1 ∧
    (run_pipeline prim msgs texts).1.tactic_detection = (textSections prim texts).1.2.2 ∧
    (run_pipeline prim msgs texts).1.influence_graph = interactionWalk msgs ∧
    (∀ (msgs' : List (Option (List Char))) (total : Nat) (sps : List (List Char))
        (counts : List (List Char × Nat)),
      extract_speaker_statistics msgs' = .ok total sps counts → sps ≠ []) := by
  have herr : extract_speaker_statistics msgs
      = .err "Could not identify any speakers or file might be empty/misformatted for speakers." := by
    unfold extract_speaker_statistics
    have hc : speakerCounter (resolvableSpeakers msgs) = [] :=
      (speakerCounter_empty_iff _).mpr h
    rw [hc]
    rfl
  refine ⟨herr, rfl, ?_, rfl, rfl, rfl, rfl, ?_⟩
  · unfold run_pipeline
    rw [herr]
    exact List.mem_append_left _ (by simp)
  · intro msgs' total sps counts hok
    unfold extract_speaker_statistics at hok
    by_cases hc : (speakerCounter (resolvableSpeakers msgs')).isEmpty
    · rw [if_pos hc] at hok
      cases hok
    · rw [if_neg hc] at hok
      have hsps : sps = (speakerCounter (resolvableSpeakers msgs')).map Prod.fst := by
        injection hok with h1 h2 h3
        exact h2.symm
      have hne : speakerCounter (resolvableSpeakers msgs') ≠ [] := by
        intro hnil
        rw [hnil] at hc
        exact hc rfl
      rw [hsps]
      simpa [List.map_eq_nil_iff] using hne

/-- C8 witness: a transcript with no resolvable speaker. -/
theorem no_speakers_error_isolated_witness :
    extract_speaker_statistics [none]
        = .err "Could not identify any speakers or file might be empty/misformatted for speakers." ∧
    (run_pipeline (fun _ => Except.ok []) [none] (Except.ok [])).1.speaker_statistics
        = extract_speaker_statistics [none] ∧
    ("Speaker statistics error: Could not identify any speakers or file might be empty/misformatted for speakers.")
        ∈ (run_pipeline (fun _ => Except.ok []) [none] (Except.ok [])).2 ∧
    (run_pipeline (fun _ => Except.ok []) [none] (Except.ok [])).1.emotion_analysis
        = (textSections (fun _ => Except.ok []) (Except.ok [])).1.1 ∧
    (run_pipeline (fun _ => Except.ok []) [none] (Except.ok [])).1.persuasion_analysis
        = (textSections (fun _ => Except.ok []) (Except.ok [])).1.2.1 ∧
    (run_pipeline (fun _ => Except.ok []) [none] (Except.ok [])).1.tactic_detection
        = (textSections (fun _ => Except.ok []) (Except.ok [])).1.2.2 ∧
    (run_pipeline (fun _ => Except.ok []) [none] (Except.ok [])).1.influence_graph
        = interactionWalk [none] ∧
    (∀ (msgs' : List (Option (List Char))) (total : Nat) (sps : List (List Char))
        (counts : List (List Char × Nat)),
      extract_speaker_statistics msgs' = .ok total sps counts → sps ≠ []) :=
  no_speakers_error_isolated [none] (Except.ok []) (fun _ => Except.ok []) (by decide)

end Convolens
